import Mathlib

/-
Verification development for the column-aware CI core
(src/src/models/node.py, src/src/models/breaking_change.py,
 src/src/models/column_tracker.py, src/src/services/discovery_client.py,
 src/src/services/lineage_service.py).

Shallow embedding conventions:

* SQL expression trees produced by the external parser are modelled as
  finite rose trees (`Expr`).  Each tree node carries the data the core
  inspects: its node kind (the sqlglot classes the code tests with
  isinstance / `.key`), its `name`, its `alias` and, for column nodes,
  its `table` qualifier.  Python object identity of tree nodes is
  modelled by positions: a node is addressed by its path from the root.
  Paths are stored deepest-step-first ("rpath"), so walking to the
  parent is `List.tail`.

* sqlglot's `find_all` / `find_all_in_scope` traversal order is modelled
  as depth-first preorder.  The library walks breadth-first; every
  theorem below that depends on a traversal only does so when at most
  one node matches the search, where the two orders agree.  The outer
  root scope of `build_scope` excludes the interiors of CTE
  definitions, which is modelled by filtering out nodes that have a CTE
  ancestor (matching the code's own `_in_cte` guard).

* Python sets are modelled as lists; all theorems about them are stated
  by membership, never by order.  `str.upper()` on identifiers is
  modelled char-wise (`upStr`), and `"...".split(".")` by `splitDot`.

* The external parser, differ and the metadata query transport are
  oracles passed as function arguments (the spec treats them as
  external collaborators defined only by their interfaces).  Fallible
  calls return `Except`.
-/

namespace DbtCI

/-! ## Strings: python `str.upper()` and `"x.y".split(".")[-1]` -/

/-- Char-wise ASCII uppercase, modelling python `str.upper()` on
identifier strings. -/
def upChar (c : Char) : Char :=
  if 'a' ≤ c ∧ c ≤ 'z' then Char.ofNat (c.toNat - 32) else c

/-- Python `column_name.upper()` (src/services/discovery_client.py line 59). -/
def upStr (s : String) : String :=
  String.mk (s.data.map upChar)

/-- Helper for python `s.split(".")`. -/
def splitDotAux : List Char → List Char → List String
  | [], cur => [String.mk cur.reverse]
  | c :: rest, cur =>
      if c = '.' then String.mk cur.reverse :: splitDotAux rest []
      else splitDotAux rest (c :: cur)

/-- Python `s.split(".")`. -/
def splitDot (s : String) : List String :=
  splitDotAux s.data []

/-- Python `em.split(".")[-1]` (src/models/node.py line 200): the bare
model name, i.e. the trailing dot-delimited segment of a unique id. -/
def lastSeg (s : String) : String :=
  (splitDot s).getLastD ""

/-- The memoization key `f"{node.unique_id}.{column_name}"`
(src/models/column_tracker.py line 51). -/
def mkKey (uid c : String) : String := uid ++ "." ++ c

/-- Python set union on list-modelled sets (membership-faithful;
order is irrelevant to every theorem below). -/
def listUnion (a b : List String) : List String :=
  a ++ b.filter (fun x => !(a.contains x))

theorem mem_listUnion {a b : List String} {x : String} :
    x ∈ listUnion a b ↔ x ∈ a ∨ x ∈ b := by
  unfold listUnion
  simp only [List.mem_append, List.mem_filter, Bool.not_eq_true']
  constructor
  · rintro (h | ⟨h, _⟩) <;> tauto
  · rintro (h | h)
    · exact Or.inl h
    · by_cases hx : x ∈ a
      · exact Or.inl hx
      · exact Or.inr ⟨h, by simp [List.contains, hx]⟩

/-! ## Expression trees

The node kinds are the sqlglot expression classes the core inspects:
`exp.Select`, `exp.CTE`, `exp.Column`, `exp.Alias` (whose `.key` is
"alias"), `exp.TableAlias`, `exp.Table`, `exp.UDTF`; `other` stands for
every other sqlglot node class. -/

inductive K where
  | select | cte | column | colAlias | tableAlias | table | udtf | other
deriving DecidableEq, Repr

/-- The per-node data the core reads: the kind, `.name`, `.alias`
(empty string models python's absent/falsy alias) and, for column
nodes, the `.table` qualifier. -/
structure EData where
  kind : K := K.other
  name : String := ""
  aliasName : String := ""
  table : String := ""
deriving DecidableEq, Repr

instance : Inhabited EData := ⟨{}⟩

/-- Rose tree of expression nodes (an arena-free model of a parsed
query; parent links are recovered from paths). -/
inductive Expr where
  | node : EData → List Expr → Expr
deriving Repr

def Expr.dat : Expr → EData
  | .node d _ => d

def Expr.children : Expr → List Expr
  | .node _ cs => cs

instance : Inhabited Expr := ⟨.node {} []⟩

/-- sqlglot `expr.alias_or_name` = `self.alias or self.name`. -/
def aliasOrName (d : EData) : String :=
  if d.aliasName ≠ "" then d.aliasName else d.name

/-- Descend from a root along a forward path (root-first child
indices). -/
def nodeAt? : Expr → List Nat → Option Expr
  | e, [] => some e
  | .node _ cs, i :: rest =>
      match cs[i]? with
      | some c => nodeAt? c rest
      | none => none

/-- Data of the node addressed by a reversed path (deepest step
first); invalid paths give the default node, which has kind `other`
and so never satisfies any of the code's kind tests. -/
def dataAt (root : Expr) (rp : List Nat) : EData :=
  ((nodeAt? root rp.reverse).map Expr.dat).getD default

/-- All node positions of a tree in depth-first preorder, as reversed
paths.  Models sqlglot `find_all` collecting every node (the theorems
use it only where at most one node matches, so the exact order is
immaterial). -/
def allRPaths : Expr → List (List Nat)
  | .node _ cs => [] :: go 0 cs
where
  go : Nat → List Expr → List (List Nat)
    | _, [] => []
    | i, c :: rest => ((allRPaths c).map (fun p => p ++ [i])) ++ go (i + 1) rest

/-- The reversed paths of the strict ancestors of a node, nearest
first, ending with the root `[]`.  Models sqlglot's parent chain. -/
def ancestorRPaths : List Nat → List (List Nat)
  | [] => []
  | _ :: t => t.tails

/-- sqlglot `expr.find_ancestor(...)`: the nearest strict ancestor
whose data satisfies the test, as a reversed path. -/
def findAncestorP (root : Expr) (rp : List Nat) (p : EData → Bool) : Option (List Nat) :=
  (ancestorRPaths rp).find? (fun ap => p (dataAt root ap))

/-- `BreakingChange._in_cte` (src/models/breaking_change.py lines
35-45): `expr.find_ancestor(exp.CTE) is not None`. -/
def inCte (root : Expr) (rp : List Nat) : Bool :=
  (findAncestorP root rp (fun d => d.kind == K.cte)).isSome

/-! ## BreakingChange column-name resolution
(src/models/breaking_change.py) -/

/-- `BreakingChange._find_cte_alias` (lines 47-66): the first table
alias in the outer (root) scope whose enclosing table reference names
the CTE; falls back to the CTE's own name when none matches.  The root
scope of `build_scope` excludes CTE interiors, modelled by the
no-CTE-ancestor filter. -/
def findCteAlias (root : Expr) (cteName : String) : String :=
  match (allRPaths root).find? (fun p =>
      (dataAt root p).kind == K.tableAlias && !(inCte root p) &&
      (match findAncestorP root p (fun d => d.kind == K.table) with
       | some tp => (dataAt root tp).name == cteName
       | none => false)) with
  | some p => (dataAt root p).name
  | none => cteName

/-- The per-column test of the loop in `_find_parent_column_name`
(lines 92-101): an outer-scope (non-CTE) column reference whose table
qualifier is the CTE's alias and whose name is the CTE-local output
name. -/
def outerRefMatch (root : Expr) (cteAlias colName : String) (p : List Nat) : Bool :=
  (dataAt root p).kind == K.column && !(inCte root p) &&
  (dataAt root p).table == cteAlias && (dataAt root p).name == colName

/-- `BreakingChange._find_parent_column_name` (lines 68-104): resolve
a CTE-local projection entry to the name under which the enclosing
query exposes it. -/
def findParentColumnName (root : Expr) (rp ctePath : List Nat) : String :=
  let cteAlias := findCteAlias root (dataAt root ctePath).aliasName
  let colName := aliasOrName (dataAt root rp)
  match (allRPaths root).find? (outerRefMatch root cteAlias colName) with
  | some p =>
      match findAncestorP root p (fun d => d.kind == K.colAlias) with
      | some ap => aliasOrName (dataAt root ap)
      | none => aliasOrName (dataAt root p)
  | none => colName

/-- The projection-entry test of `BreakingChange.column_name` (lines
117-119): `expr.key in ["alias", "column"]` and no ancestor is itself
a column or alias. -/
def isProjEntry (root : Expr) (rp : List Nat) : Bool :=
  ((dataAt root rp).kind == K.colAlias || (dataAt root rp).kind == K.column) &&
  (findAncestorP root rp (fun d => d.kind == K.column || d.kind == K.colAlias)).isNone

/-- The value returned by `BreakingChange.column_name` once the walk
has reached a projection entry (lines 120-124): resolve through the
CTE when inside one, else the entry's own exposed name. -/
def columnEntryResult (root : Expr) (rp : List Nat) : Option String :=
  match findAncestorP root rp (fun d => d.kind == K.cte) with
  | some ctePath => some (findParentColumnName root rp ctePath)
  | none => some (aliasOrName (dataAt root rp))

/-- The `while True` ancestor walk of `BreakingChange.column_name`
(lines 106-129): climb from the anchor towards the root; at the first
projection entry resolve its name; at the root without one, the change
is structural and the result is none. -/
def columnNameLoop (root : Expr) : List Nat → Option String
  | [] => if isProjEntry root [] then columnEntryResult root [] else none
  | i :: t =>
      if isProjEntry root (i :: t) then columnEntryResult root (i :: t)
      else columnNameLoop root t

/-! ## Edits and the edit classifier (src/models/node.py) -/

/-- A sqlglot diff edit, carrying the position of the expression the
core reads off it: `edit.expression` for Insert and Move,
`edit.expression` / `edit.source` for Remove and Update (the
`BreakingChange.__post_init__` fallback).  Insert positions are in the
target tree; the other kinds are in the source tree. -/
inductive Edit where
  | insert (rp : List Nat)
  | remove (rp : List Nat)
  | update (rp : List Nat)
  | move (rp : List Nat)
deriving DecidableEq, Repr

def Edit.isInsert : Edit → Bool
  | .insert _ => true
  | _ => false

def Edit.rpath : Edit → List Nat
  | .insert rp => rp
  | .remove rp => rp
  | .update rp => rp
  | .move rp => rp

/-- Whether the edit's expression lives in the target tree. -/
def Edit.onTarget (e : Edit) : Bool := e.isInsert

/-- `BreakingChange` wraps one edit (src/models/breaking_change.py
lines 13-33). -/
structure BreakingChange where
  edit : Edit
deriving DecidableEq, Repr

/-- `BreakingChange.column_name`: resolve the output column affected
by the wrapped edit, walking the ancestor chain from the edit's
expression in the tree that contains it. -/
def columnNameOf (src tgt : Expr) (bc : BreakingChange) : Option String :=
  columnNameLoop (if bc.edit.onTarget then tgt else src) bc.edit.rpath

/-- `Node._get_breaking_changes` (src/models/node.py lines 77-99):
every non-Insert edit is breaking; an Insert is breaking iff its
expression is a UDTF, or its parent is neither a Select nor itself one
of the inserted expressions of the same edit script. -/
def getBreakingChanges (tgt : Expr) (changes : List Edit) : List BreakingChange :=
  let inserts : List (List Nat) :=
    changes.filterMap (fun e => match e with | .insert rp => some rp | _ => none)
  changes.filterMap (fun e =>
    match e with
    | .insert rp =>
        let udtfIns := (dataAt tgt rp).kind == K.udtf
        let parentSelect :=
          match rp with | [] => false | _ :: t => (dataAt tgt t).kind == K.select
        let parentInserted :=
          match rp with | [] => false | _ :: t => inserts.contains t
        if udtfIns || (!parentSelect && !parentInserted) then
          some ⟨.insert rp⟩
        else none
    | e => some ⟨e⟩)

/-! ## Node construction (src/models/node.py lines 24-99) -/

/-- The error the external parser raises on malformed input
(`sqlglot.errors.ParseError`). -/
inductive PError where
  | parseError
deriving DecidableEq, Repr

/-- An error raised by the external differ. -/
inductive DError where
  | diffError
deriving DecidableEq, Repr

/-- A constructed `Node`: the dataclass fields plus the derived fields
computed once by `__post_init__` and immutable afterwards. -/
structure Node where
  uniqueId : String
  sourceTree : Expr
  targetTree : Expr
  changes : List Edit
  breakingChanges : List BreakingChange
  ignoreColumnChanges : Bool
  columnChanges : List String

/-- The derived-field computation of `Node.__post_init__` (lines
62-75), given already-parsed trees and the edit script:
`breaking_changes`, then `ignore_column_changes` (any breaking change
with no column name), then `column_changes` (empty when ignoring, else
the set of truthy resolved names). -/
def computeNode (uid : String) (src tgt : Expr) (changes : List Edit) : Node :=
  let bcs := getBreakingChanges tgt changes
  let ignore := bcs.any (fun bc => (columnNameOf src tgt bc).isNone)
  let cols :=
    if ignore then []
    else ((bcs.filterMap (columnNameOf src tgt)).filter (fun s => s ≠ "")).dedup
  ⟨uid, src, tgt, changes, bcs, ignore, cols⟩

/-- `Node.__post_init__` (lines 44-75): parse the source code, parse
the target code (both calls sit outside the try/except, so a parse
failure propagates to the caller), then diff inside try/except with a
diff failure degrading to an empty edit script. -/
def mkNode (parse : String → String → Except PError Expr)
    (diffF : Expr → Expr → Except DError (List Edit))
    (uid sourceCode targetCode dialect : String) : Except PError Node := do
  let s ← parse sourceCode dialect
  let t ← parse targetCode dialect
  let changes := match diffF s t with | .ok cs => cs | .error _ => []
  pure (computeNode uid s t changes)

/-! ## ColumnTracker (src/models/column_tracker.py) -/

/-- The mutable per-run state of `ColumnTracker`: the set of
`unique_id.column_name` keys already queried and the accumulated
impacted ids. -/
structure TrackerState where
  tracked : List String
  impacted : List String
deriving DecidableEq, Repr

/-- What one `track_node_columns` call produces: the returned delta of
impacted ids, the tracker state afterwards, and the list of
`(unique_id, column_name)` lineage queries it issued. -/
structure TrackResult where
  delta : List String
  state : TrackerState
  queries : List (String × String)
deriving DecidableEq, Repr

/-- The `for column_name in node.column_changes` loop of
`ColumnTracker.track_node_columns` (lines 50-63): skip columns whose
key is already tracked; otherwise query the lineage service, grow the
delta, mark the key tracked and union the running delta into the
accumulated impacted set.  `svc` is `LineageService.get_column_lineage`
for this run, a fixed function of `(unique_id, column_name)`. -/
def trackGo (svc : String → String → List String) (uid : String) :
    List String → List String → TrackerState → List (String × String) → TrackResult
  | [], delta, st, qs => ⟨delta, st, qs⟩
  | c :: rest, delta, st, qs =>
      if st.tracked.contains (mkKey uid c) then
        trackGo svc uid rest delta st qs
      else
        let delta2 := listUnion delta (svc uid c)
        let st2 : TrackerState :=
          ⟨st.tracked ++ [mkKey uid c], listUnion st.impacted delta2⟩
        trackGo svc uid rest delta2 st2 (qs ++ [(uid, c)])

/-- `ColumnTracker.track_node_columns` (lines 33-65). -/
def trackNodeColumns (svc : String → String → List String) (node : Node)
    (st : TrackerState) : TrackResult :=
  trackGo svc node.uniqueId node.columnChanges [] st []

/-! ## DiscoveryClient and LineageService
(src/services/discovery_client.py, src/services/lineage_service.py) -/

/-- One entry of the column-lineage query response
(`nodeUniqueId` / `relationship`). -/
structure LineageEntry where
  nodeUniqueId : String
  relationship : String
deriving DecidableEq, Repr

/-- `DiscoveryClient.get_column_lineage` (lines 28-81): one metadata
query with the column name uppercased in the filter
(`column_name.upper()`, line 59); an error from the query degrades to
an empty list.  The second component records the single
`(nodeUniqueId, columnName)` query attempt actually sent. -/
def discoveryGetColumnLineage
    (q : String → String → Except Unit (List LineageEntry))
    (nodeId columnName : String) :
    List LineageEntry × List (String × String) :=
  match q nodeId (upStr columnName) with
  | .ok l => (l, [(nodeId, upStr columnName)])
  | .error _ => ([], [(nodeId, upStr columnName)])

/-- `DiscoveryClient.get_node_lineage` (lines 83-135): one batch
metadata query over the node names; an error degrades to an empty
set.  The second component records the single query attempt. -/
def discoveryGetNodeLineage
    (q : List String → Except Unit (List String))
    (nodeNames : List String) :
    List String × List (List String) :=
  match q nodeNames with
  | .ok l => (l.dedup, [nodeNames])
  | .error _ => ([], [nodeNames])

/-- `LineageService.get_column_lineage` (lines 38-71): call the
discovery client, keep only entries whose relationship is "child", and
return the set of their unique ids. -/
def serviceGetColumnLineage
    (q : String → String → Except Unit (List LineageEntry))
    (uid columnName : String) : List String × List (String × String) :=
  let r := discoveryGetColumnLineage q uid columnName
  (((r.1.filter (fun e => e.relationship == "child")).map
      (fun e => e.nodeUniqueId)).dedup, r.2)

/-! ## NodeManager (src/models/node.py lines 119-200) -/

/-- One lineage lookup issued during `get_excluded_nodes`: a
column-level query or the single node-level batch query. -/
inductive QEvent where
  | colQuery (uid col : String)
  | nodeQuery (uids : List String)
deriving DecidableEq, Repr

/-- The result of the column-level phase of `get_excluded_nodes`
(lines 184-188): the tracker state, the accumulated impacted set and
the queries issued. -/
structure PhaseResult where
  state : TrackerState
  impacted : List String
  log : List QEvent
deriving DecidableEq, Repr

/-- The `for node in self.nodes` loop of `get_excluded_nodes` (lines
184-188): nodes with a non-empty `column_changes` set are run through
the column tracker and the returned delta is unioned into
`_all_impacted_unique_ids`. -/
def colPhase (svc : String → String → List String) :
    List Node → TrackerState → List String → List QEvent → PhaseResult
  | [], st, imp, log => ⟨st, imp, log⟩
  | n :: rest, st, imp, log =>
      if n.columnChanges.isEmpty then colPhase svc rest st imp log
      else
        let r := trackNodeColumns svc n st
        colPhase svc rest r.state (listUnion imp r.delta)
          (log ++ r.queries.map (fun qc => QEvent.colQuery qc.1 qc.2))

/-- The outcome of `NodeManager.get_excluded_nodes`: the returned list
of bare model names, the final `_all_impacted_unique_ids` set, and
every lineage lookup issued on the way. -/
structure RunResult where
  excluded : List String
  impacted : List String
  log : List QEvent
deriving DecidableEq, Repr

/-- `NodeManager.get_excluded_nodes` (lines 166-200): return empty
when there are no nodes or no candidate universe; otherwise run the
column-level phase, then one batch node-level lineage query for the
nodes with `ignore_column_changes`, and output the universe minus the
impacted set as bare model names.  `svcCol` is
`LineageService.get_column_lineage` and `svcNode` is
`LineageService.get_node_lineage` for this run. -/
def getExcludedNodes (svcCol : String → String → List String)
    (svcNode : List Node → List String)
    (nodes : List Node) (allUniqueIds : List String) : RunResult :=
  if nodes.isEmpty then ⟨[], [], []⟩
  else if allUniqueIds.isEmpty then ⟨[], [], []⟩
  else
    let cp := colPhase svcCol nodes ⟨[], []⟩ [] []
    let ignoreNodes := nodes.filter (fun n => n.ignoreColumnChanges)
    let imp2 :=
      if ignoreNodes.isEmpty then cp.impacted
      else listUnion cp.impacted (svcNode ignoreNodes)
    let log2 :=
      if ignoreNodes.isEmpty then cp.log
      else cp.log ++ [QEvent.nodeQuery (ignoreNodes.map (fun n => n.uniqueId))]
    ⟨(allUniqueIds.filter (fun u => !(imp2.contains u))).map lastSeg, imp2, log2⟩

/-- The impacted set described by the spec of the resolver: ids
reported by some column-level lookup of a changed column, together
with the node-level lookup over the ignore-column-changes nodes when
there are any. -/
def impactedSpec (svcCol : String → String → List String)
    (svcNode : List Node → List String) (nodes : List Node) (x : String) : Prop :=
  (∃ n ∈ nodes, ∃ c ∈ n.columnChanges, x ∈ svcCol n.uniqueId c) ∨
  ((nodes.filter (fun n => n.ignoreColumnChanges)).isEmpty = false ∧
    x ∈ svcNode (nodes.filter (fun n => n.ignoreColumnChanges)))

instance (svcCol : String → String → List String)
    (svcNode : List Node → List String) (nodes : List Node) (x : String) :
    Decidable (impactedSpec svcCol svcNode nodes x) := by
  unfold impactedSpec
  infer_instance

/-! ## General list lemmas used below -/

theorem find?_eq_head_filter {α : Type} (p : α → Bool) (l : List α) :
    l.find? p = (l.filter p).head? := by
  induction l with
  | nil => rfl
  | cons a t ih =>
      cases hpa : p a with
      | true =>
          rw [List.find?_cons_of_pos _ hpa, List.filter_cons_of_pos hpa]
          rfl
      | false =>
          have hna : ¬ p a = true := by simp [hpa]
          rw [List.find?_cons_of_neg _ hna, List.filter_cons_of_neg hna]
          exact ih

/-! ## Claim C1 -/

/-- Claim C1, counterexample: with a parser that fails on the given
texts, Node construction propagates the parse error to the caller
instead of producing a node with an empty edit script — the
`parse_one` calls sit outside the try/except of `Node.__post_init__`. -/
theorem C1_counterexample_parse_error_propagates :
    mkNode (fun _ _ => Except.error PError.parseError)
      (fun _ _ => Except.ok []) "model.jaffle.orders" "select 1" "select 2"
      "snowflake" = Except.error PError.parseError := rfl

/-- Claim C1 (amended): a parse failure of either text propagates the
parser's error to the caller (no Node is constructed), while a diff
failure after two successful parses degrades to an empty `changes`
edit script on a successfully constructed Node. -/
theorem C1_parse_raises_diff_degrades
    (parse : String → String → Except PError Expr)
    (diffF : Expr → Expr → Except DError (List Edit))
    (uid sc tc d : String) :
    (∀ e, parse sc d = Except.error e →
      mkNode parse diffF uid sc tc d = Except.error e) ∧
    (∀ s e, parse sc d = Except.ok s → parse tc d = Except.error e →
      mkNode parse diffF uid sc tc d = Except.error e) ∧
    (∀ s t de, parse sc d = Except.ok s → parse tc d = Except.ok t →
      diffF s t = Except.error de →
      mkNode parse diffF uid sc tc d = Except.ok (computeNode uid s t []) ∧
        (computeNode uid s t []).changes = []) := by
  refine ⟨fun e he => ?_, fun s e hs he => ?_, fun s t de hs ht hd => ⟨?_, rfl⟩⟩
  · simp only [mkNode, he]
    rfl
  · simp only [mkNode, hs, he]
    rfl
  · have h1 : mkNode parse diffF uid sc tc d
        = Except.ok (computeNode uid s t
            (match diffF s t with
             | Except.ok cs => cs
             | Except.error _ => [])) := by
      simp only [mkNode, hs, ht]
      rfl
    rw [h1, hd]

/-- Witness for C1: both prongs of the amended claim at concrete
inputs. -/
theorem C1_parse_raises_diff_degrades_witness :
    mkNode (fun s _ => if s = "bad (" then Except.error PError.parseError
        else Except.ok (Expr.node {} []))
      (fun _ _ => Except.error DError.diffError)
      "model.jaffle.orders" "bad (" "select 1" "duckdb"
      = Except.error PError.parseError ∧
    mkNode (fun s _ => if s = "bad (" then Except.error PError.parseError
        else Except.ok (Expr.node {} []))
      (fun _ _ => Except.error DError.diffError)
      "model.jaffle.orders" "select 1" "select 2" "duckdb"
      = Except.ok (computeNode "model.jaffle.orders" (Expr.node {} [])
          (Expr.node {} []) []) := by
  constructor
  · exact (C1_parse_raises_diff_degrades _ _ _ _ _ _).1 PError.parseError rfl
  · exact ((C1_parse_raises_diff_degrades _ _ _ _ _ _).2.2 (Expr.node {} [])
      (Expr.node {} []) DError.diffError rfl rfl rfl).1

/-! ## Claim C2 -/

/-- Claim C2: for every constructed Node, `ignore_column_changes` is
true exactly when some breaking change resolves to no column name, and
whenever it is true the `column_changes` set is empty — regardless of
how many other breaking changes resolved to names. -/
theorem C2_ignore_column_changes_invariant (uid : String) (src tgt : Expr)
    (changes : List Edit) :
    ((∃ bc ∈ (computeNode uid src tgt changes).breakingChanges,
        columnNameOf src tgt bc = none) ↔
      (computeNode uid src tgt changes).ignoreColumnChanges = true) ∧
    ((computeNode uid src tgt changes).ignoreColumnChanges = true →
      (computeNode uid src tgt changes).columnChanges = []) := by
  constructor
  · simp [computeNode, List.any_eq_true, Option.isNone_iff_eq_none]
  · intro h
    simp only [computeNode] at h ⊢
    simp [h]

/-- Source tree for the C2 witness:
`SELECT amount AS revenue FROM sales`. -/
def c2src : Expr :=
  .node {kind := K.select}
    [ .node {kind := K.colAlias, aliasName := "revenue"} [],
      .node {kind := K.table, name := "sales"} [] ]

/-- Target tree for the C2 witness. -/
def c2tgt : Expr :=
  .node {kind := K.select}
    [ .node {kind := K.colAlias, aliasName := "income"} [],
      .node {kind := K.table, name := "sales_v2"} [] ]

/-- Witness for C2: a node whose edit script removes the source table
(no column name) and updates the aliased projection (resolves to
"revenue") ignores column changes and has an empty column set. -/
theorem C2_ignore_column_changes_invariant_witness :
    (computeNode "model.jaffle.orders" c2src c2tgt
      [Edit.remove [1], Edit.update [0]]).columnChanges = [] :=
  (C2_ignore_column_changes_invariant "model.jaffle.orders" c2src c2tgt
      [Edit.remove [1], Edit.update [0]]).2
    ((C2_ignore_column_changes_invariant "model.jaffle.orders" c2src c2tgt
      [Edit.remove [1], Edit.update [0]]).1.mp
      ⟨⟨Edit.remove [1]⟩, by decide, by decide⟩)

/-! ## Claim C3 -/

/-- Target tree for the C3 counterexample: a SELECT whose projection
list holds a table-valued (UDTF) expression. -/
def c3tgt : Expr :=
  .node {kind := K.select} [ .node {kind := K.udtf, name := "unnested"} [] ]

/-- Claim C3, counterexample: an Insert whose inserted expression is a
UDTF sitting directly under the top-level SELECT is classified as
breaking, so the claim's second half is false as stated. -/
theorem C3_counterexample_udtf_insert_under_select :
    (dataAt c3tgt [0]).kind = K.udtf ∧ (dataAt c3tgt []).kind = K.select ∧
    (⟨Edit.insert [0]⟩ : BreakingChange) ∈
      getBreakingChanges c3tgt [Edit.insert [0]] := by decide

/-- Claim C3 (amended): every Remove and every Update edit is
classified as breaking, and an Insert whose inserted expression is not
a table-valued (UDTF) construct and sits directly under a SELECT
projection container yields no BreakingChange. -/
theorem C3_remove_update_breaking_plain_select_insert_not (tgt : Expr)
    (changes : List Edit) :
    (∀ rp, Edit.remove rp ∈ changes →
      (⟨Edit.remove rp⟩ : BreakingChange) ∈ getBreakingChanges tgt changes) ∧
    (∀ rp, Edit.update rp ∈ changes →
      (⟨Edit.update rp⟩ : BreakingChange) ∈ getBreakingChanges tgt changes) ∧
    (∀ i rp, Edit.insert (i :: rp) ∈ changes →
      (dataAt tgt (i :: rp)).kind ≠ K.udtf →
      (dataAt tgt rp).kind = K.select →
      (⟨Edit.insert (i :: rp)⟩ : BreakingChange) ∉
        getBreakingChanges tgt changes) := by
  refine ⟨fun rp h => ?_, fun rp h => ?_, fun i rp hmem hudtf hsel hcontra => ?_⟩
  · exact List.mem_filterMap.mpr ⟨Edit.remove rp, h, rfl⟩
  · exact List.mem_filterMap.mpr ⟨Edit.update rp, h, rfl⟩
  · obtain ⟨a, _, hfa⟩ := List.mem_filterMap.mp hcontra
    cases a with
    | insert rp' =>
        simp only [getBreakingChanges] at hfa
        split at hfa
        · next hcond =>
            obtain rfl : rp' = i :: rp := by
              simpa [BreakingChange.mk.injEq, Edit.insert.injEq] using hfa
            rw [Bool.or_eq_true] at hcond
            rcases hcond with hcond | hcond
            · exact hudtf (by simpa using hcond)
            · rw [Bool.and_eq_true] at hcond
              have := hcond.1
              simp [hsel] at this
        · exact Option.noConfusion hfa
    | remove rp' => simp [getBreakingChanges] at hfa
    | update rp' => simp [getBreakingChanges] at hfa
    | move rp' => simp [getBreakingChanges] at hfa

/-- Target tree for the C3 witness. -/
def c3wtgt : Expr :=
  .node {kind := K.select}
    [ .node {kind := K.column, name := "address"} [],
      .node {kind := K.other} [ .node {kind := K.column, name := "flag"} [] ] ]

/-- Witness for C3: a plain column Insert directly under the SELECT is
not breaking while a Remove in the same script is. -/
theorem C3_remove_update_breaking_plain_select_insert_not_witness :
    (⟨Edit.insert [0]⟩ : BreakingChange) ∉
      getBreakingChanges c3wtgt [Edit.insert [0], Edit.remove [1]] ∧
    (⟨Edit.remove [1]⟩ : BreakingChange) ∈
      getBreakingChanges c3wtgt [Edit.insert [0], Edit.remove [1]] := by
  constructor
  · exact (C3_remove_update_breaking_plain_select_insert_not c3wtgt
      [Edit.insert [0], Edit.remove [1]]).2.2 0 [] (by decide) (by decide)
      (by decide)
  · exact (C3_remove_update_breaking_plain_select_insert_not c3wtgt
      [Edit.insert [0], Edit.remove [1]]).1 [1] (by decide)

/-! ## Claim C10 -/

/-- Claim C10: every Move edit — and in general every non-Insert
edit — in an edit script is classified as a breaking change. -/
theorem C10_move_and_all_non_insert_breaking (tgt : Expr)
    (changes : List Edit) :
    (∀ rp, Edit.move rp ∈ changes →
      (⟨Edit.move rp⟩ : BreakingChange) ∈ getBreakingChanges tgt changes) ∧
    (∀ e ∈ changes, e.isInsert = false →
      (⟨e⟩ : BreakingChange) ∈ getBreakingChanges tgt changes) := by
  constructor
  · exact fun rp h => List.mem_filterMap.mpr ⟨Edit.move rp, h, rfl⟩
  · intro e he hni
    cases e with
    | insert rp => simp [Edit.isInsert] at hni
    | remove rp => exact List.mem_filterMap.mpr ⟨Edit.remove rp, he, rfl⟩
    | update rp => exact List.mem_filterMap.mpr ⟨Edit.update rp, he, rfl⟩
    | move rp => exact List.mem_filterMap.mpr ⟨Edit.move rp, he, rfl⟩

/-- Witness for C10: a Move of the source table expression is
classified as breaking. -/
theorem C10_move_and_all_non_insert_breaking_witness :
    (⟨Edit.move [1]⟩ : BreakingChange) ∈
      getBreakingChanges c3wtgt [Edit.insert [0], Edit.move [1]] :=
  (C10_move_and_all_non_insert_breaking c3wtgt
    [Edit.insert [0], Edit.move [1]]).1 [1] (by decide)

/-! ## Claim C5 -/

/-- Claim C5 (code evaluation): `DiscoveryClient.get_column_lineage`
sends the uppercased column name in the query filter for every input —
the computation has no dialect parameter at all, so case-preserving
dialects also get the folded key, contrary to the claim (and to
tests/models/test_column_tracker.py, which expects a dialect-aware
`_column_name_for_dialect`). -/
theorem C5_column_key_uppercased_regardless_of_dialect :
    (∀ (q : String → String → Except Unit (List LineageEntry))
      (nodeId col : String),
      (discoveryGetColumnLineage q nodeId col).2 = [(nodeId, upStr col)]) ∧
    upStr "name" = "NAME" ∧ ("NAME" : String) ≠ "name" := by
  refine ⟨fun q nodeId col => ?_, by decide, by decide⟩
  unfold discoveryGetColumnLineage
  cases q nodeId (upStr col) <;> rfl

/-! ## Claim C6 -/

/-- Claim C6: an error from the underlying metadata query degrades to
an empty result for that lookup — the empty entry list and empty id
set for a column-level lookup, the empty id set for the whole-model
batch lookup — and exactly one query attempt is made (no retry). -/
theorem C6_lineage_error_degrades_no_retry
    (q1 : String → String → Except Unit (List LineageEntry))
    (q2 : List String → Except Unit (List String))
    (uid col : String) (names : List String) :
    (q1 uid (upStr col) = Except.error () →
      discoveryGetColumnLineage q1 uid col = ([], [(uid, upStr col)]) ∧
      serviceGetColumnLineage q1 uid col = ([], [(uid, upStr col)])) ∧
    (q2 names = Except.error () →
      discoveryGetNodeLineage q2 names = ([], [names])) := by
  constructor
  · intro h
    constructor
    · simp [discoveryGetColumnLineage, h]
    · simp [serviceGetColumnLineage, discoveryGetColumnLineage, h]
  · intro h
    simp [discoveryGetNodeLineage, h]

/-- Witness for C6: concrete always-failing transports degrade both
lookups to empty results with a single attempt each. -/
theorem C6_lineage_error_degrades_no_retry_witness :
    discoveryGetColumnLineage (fun _ _ => Except.error ())
      "model.jaffle.orders" "amount" = ([], [("model.jaffle.orders", "AMOUNT")]) ∧
    discoveryGetNodeLineage (fun _ => Except.error ()) ["orders"]
      = ([], [["orders"]]) := by
  constructor
  · exact ((C6_lineage_error_degrades_no_retry (fun _ _ => Except.error ())
      (fun _ => Except.error ()) "model.jaffle.orders" "amount" ["orders"]).1
      rfl).1 |>.trans (by decide)
  · exact (C6_lineage_error_degrades_no_retry (fun _ _ => Except.error ())
      (fun _ => Except.error ()) "model.jaffle.orders" "amount" ["orders"]).2 rfl

/-! ## Claim C9 -/

/-- Claim C9: with no changed nodes, or with an empty candidate
downstream universe, the resolver returns the empty exclusion list and
consults the lineage service for nothing. -/
theorem C9_empty_inputs_no_queries (svcCol : String → String → List String)
    (svcNode : List Node → List String)
    (nodes : List Node) (allUniqueIds : List String)
    (h : nodes = [] ∨ allUniqueIds = []) :
    (getExcludedNodes svcCol svcNode nodes allUniqueIds).excluded = [] ∧
    (getExcludedNodes svcCol svcNode nodes allUniqueIds).log = [] := by
  unfold getExcludedNodes
  rcases h with h | h
  · subst h
    simp
  · subst h
    by_cases hn : nodes.isEmpty <;> simp [hn]

/-- Witness for C9: the empty node batch returns no exclusions and
issues no query. -/
theorem C9_empty_inputs_no_queries_witness :
    (getExcludedNodes (fun _ _ => []) (fun _ => []) []
      ["model.jaffle.orders"]).excluded = [] ∧
    (getExcludedNodes (fun _ _ => []) (fun _ => []) []
      ["model.jaffle.orders"]).log = [] :=
  C9_empty_inputs_no_queries (fun _ _ => []) (fun _ => []) []
    ["model.jaffle.orders"] (Or.inl rfl)

/-! ## Claim C4 -/

theorem contains_iff (l : List String) (x : String) :
    l.contains x = true ↔ x ∈ l := by
  simp [List.contains]

theorem trackGo_tracked_mem (svc : String → String → List String) (uid : String) :
    ∀ (cols delta : List String) (st : TrackerState)
      (qs : List (String × String)) (k : String),
    k ∈ (trackGo svc uid cols delta st qs).state.tracked ↔
      k ∈ st.tracked ∨ ∃ c ∈ cols, k = mkKey uid c := by
  intro cols
  induction cols with
  | nil =>
      intro delta st qs k
      simp [trackGo]
  | cons c rest ih =>
      intro delta st qs k
      by_cases hc : st.tracked.contains (mkKey uid c)
      · have hmem := (contains_iff _ _).mp hc
        rw [trackGo, if_pos hc, ih]
        simp only [List.exists_mem_cons_iff]
        constructor
        · tauto
        · rintro (h | (h | h))
          · exact Or.inl h
          · exact Or.inl (h ▸ hmem)
          · exact Or.inr h
      · rw [trackGo, if_neg hc, ih]
        simp only [List.mem_append, List.mem_singleton, List.exists_mem_cons_iff]
        tauto

theorem trackGo_all_tracked (svc : String → String → List String) (uid : String) :
    ∀ (cols delta : List String) (st : TrackerState)
      (qs : List (String × String)),
    (∀ c ∈ cols, mkKey uid c ∈ st.tracked) →
    trackGo svc uid cols delta st qs = ⟨delta, st, qs⟩ := by
  intro cols
  induction cols with
  | nil => intro delta st qs _; rfl
  | cons c rest ih =>
      intro delta st qs h
      have hc : st.tracked.contains (mkKey uid c) :=
        (contains_iff _ _).mpr (h c (List.mem_cons_self c rest))
      rw [trackGo, if_pos hc]
      exact ih delta st qs (fun c' hc' => h c' (List.mem_cons_of_mem c hc'))

theorem trackGo_log_keys_nodup (svc : String → String → List String) (uid : String) :
    ∀ (cols delta : List String) (st : TrackerState)
      (qs : List (String × String)),
    (∀ q ∈ qs, mkKey q.1 q.2 ∈ st.tracked) →
    (qs.map (fun q => mkKey q.1 q.2)).Nodup →
    ((trackGo svc uid cols delta st qs).queries.map
      (fun q => mkKey q.1 q.2)).Nodup := by
  intro cols
  induction cols with
  | nil => intro delta st qs _ hnd; exact hnd
  | cons c rest ih =>
      intro delta st qs hinv hnd
      by_cases hc : st.tracked.contains (mkKey uid c)
      · rw [trackGo, if_pos hc]
        exact ih delta st qs hinv hnd
      · rw [trackGo, if_neg hc]
        apply ih
        · intro q hq
          rcases List.mem_append.mp hq with hq | hq
          · exact List.mem_append_left _ (hinv q hq)
          · rcases List.mem_singleton.mp hq with rfl
            exact List.mem_append_right _ (List.mem_singleton_self _)
        · rw [List.map_append]
          rw [List.nodup_append]
          refine ⟨hnd, List.nodup_singleton _, ?_⟩
          intro k hk hk2
          rcases List.mem_map.mp hk with ⟨q, hq, rfl⟩
          have heq : mkKey q.1 q.2 = mkKey uid c :=
            List.mem_singleton.mp (by simpa using hk2)
          exact hc ((contains_iff _ _).mpr (heq ▸ hinv q hq))

/-- Claim C4: running `track_node_columns` a second time on the same
node returns the empty delta, leaves the tracker state (including the
accumulated impacted set) unchanged, and issues no lineage query; and
within a single run each `unique_id.column_name` key is queried at
most once. -/
theorem C4_track_idempotent_at_most_once (svc : String → String → List String)
    (node : Node) (st : TrackerState) :
    trackNodeColumns svc node (trackNodeColumns svc node st).state
        = ⟨[], (trackNodeColumns svc node st).state, []⟩ ∧
    ((trackNodeColumns svc node st).queries.map
        (fun q => mkKey q.1 q.2)).Nodup := by
  constructor
  · apply trackGo_all_tracked
    intro c hc
    unfold trackNodeColumns
    rw [trackGo_tracked_mem]
    exact Or.inr ⟨c, hc, rfl⟩
  · apply trackGo_log_keys_nodup
    · intro q hq
      exact absurd hq (List.not_mem_nil q)
    · exact List.nodup_nil

/-! ## Claim C7 -/

theorem columnNameLoop_proj_entry (root : Expr) (rp : List Nat)
    (h : isProjEntry root rp = true) :
    columnNameLoop root rp = columnEntryResult root rp := by
  cases rp with
  | nil => simp [columnNameLoop, h]
  | cons i t => simp [columnNameLoop, h]

/-- Claim C7: from a projection entry anchored inside a CTE, column
name resolution scans the outer scope for references to the CTE-local
name under the CTE's table alias; when the single such reference is
wrapped in an alias, the outer alias's name is returned, and when no
outer reference exists the CTE-local name is returned unchanged. -/
theorem C7_cte_outer_alias_resolution (root : Expr) (rp ctePath : List Nat)
    (hproj : isProjEntry root rp = true)
    (hcte : findAncestorP root rp (fun d => d.kind == K.cte) = some ctePath) :
    (((allRPaths root).filter (outerRefMatch root
        (findCteAlias root (dataAt root ctePath).aliasName)
        (aliasOrName (dataAt root rp)))) = [] →
      columnNameLoop root rp = some (aliasOrName (dataAt root rp))) ∧
    (∀ p ap, ((allRPaths root).filter (outerRefMatch root
        (findCteAlias root (dataAt root ctePath).aliasName)
        (aliasOrName (dataAt root rp)))) = [p] →
      findAncestorP root p (fun d => d.kind == K.colAlias) = some ap →
      columnNameLoop root rp = some (aliasOrName (dataAt root ap))) := by
  have hloop := columnNameLoop_proj_entry root rp hproj
  simp only [columnEntryResult, hcte] at hloop
  constructor
  · intro hflt
    rw [hloop]
    simp only [findParentColumnName]
    rw [find?_eq_head_filter, hflt]
    rfl
  · intro p ap hflt hal
    rw [hloop]
    simp only [findParentColumnName]
    rw [find?_eq_head_filter, hflt]
    simp [hal]

/-- Tree for the C7 witness — spec scenario C:
`WITH summary AS (SELECT category_id, SUM(amount * exchange_rate) AS
total FROM transactions GROUP BY category_id) SELECT c.name, s.total
AS category_total FROM categories AS c JOIN summary AS s ON ...`. -/
def c7root : Expr :=
  .node {kind := K.select}
    [ .node {kind := K.cte, aliasName := "summary"}
        [ .node {kind := K.select}
            [ .node {kind := K.column, name := "category_id"} [],
              .node {kind := K.colAlias, aliasName := "total"}
                [ .node {kind := K.other, name := "SUM"} [] ] ] ],
      .node {kind := K.column, name := "name", table := "c"} [],
      .node {kind := K.colAlias, aliasName := "category_total"}
        [ .node {kind := K.column, name := "total", table := "s"} [] ],
      .node {kind := K.table, name := "categories"}
        [ .node {kind := K.tableAlias, name := "c"} [] ],
      .node {kind := K.table, name := "summary"}
        [ .node {kind := K.tableAlias, name := "s"} [] ] ]

/-- Witness for C7: the CTE-local `total` entry resolves to the outer
alias `category_total`. -/
theorem C7_cte_outer_alias_resolution_witness :
    columnNameLoop c7root [1, 0, 0] = some "category_total" :=
  ((C7_cte_outer_alias_resolution c7root [1, 0, 0] [0] (by decide)
      (by decide)).2 [0, 2] [2] (by decide) (by decide)).trans (by decide)

/-! ## Claim C8 -/

theorem trackGo_delta_mem (svc : String → String → List String) (uid : String) :
    ∀ (cols : List String),
    (∀ c ∈ cols, ∀ c' ∈ cols, mkKey uid c = mkKey uid c' →
      svc uid c = svc uid c') →
    ∀ (delta : List String) (st : TrackerState)
      (qs : List (String × String)) (x : String),
    x ∈ (trackGo svc uid cols delta st qs).delta ↔
      x ∈ delta ∨ ∃ c ∈ cols, mkKey uid c ∉ st.tracked ∧ x ∈ svc uid c := by
  intro cols
  induction cols with
  | nil =>
      intro _ delta st qs x
      simp [trackGo]
  | cons c rest ih =>
      intro hinj delta st qs x
      have hinj' : ∀ c1 ∈ rest, ∀ c2 ∈ rest, mkKey uid c1 = mkKey uid c2 →
          svc uid c1 = svc uid c2 := fun c1 h1 c2 h2 h3 =>
        hinj c1 (List.mem_cons_of_mem c h1) c2 (List.mem_cons_of_mem c h2) h3
      by_cases hc : st.tracked.contains (mkKey uid c)
      · have hmem := (contains_iff _ _).mp hc
        rw [trackGo, if_pos hc, ih hinj']
        simp only [List.exists_mem_cons_iff]
        constructor
        · tauto
        · rintro (h | (⟨hnk, _⟩ | h))
          · exact Or.inl h
          · exact absurd hmem hnk
          · exact Or.inr h
      · have hnmem : mkKey uid c ∉ st.tracked :=
          fun h => hc ((contains_iff _ _).mpr h)
        rw [trackGo, if_neg hc, ih hinj']
        simp only [mem_listUnion, List.mem_append, List.mem_singleton,
          List.exists_mem_cons_iff]
        constructor
        · rintro ((hd | hs) | ⟨c', hc', hnk, hx⟩)
          · exact Or.inl hd
          · exact Or.inr (Or.inl ⟨hnmem, hs⟩)
          · exact Or.inr (Or.inr ⟨c', hc', fun hk => hnk (Or.inl hk), hx⟩)
        · rintro (hd | (⟨_, hx⟩ | ⟨c', hc', hnk, hx⟩))
          · exact Or.inl (Or.inl hd)
          · exact Or.inl (Or.inr hx)
          · by_cases hkeq : mkKey uid c' = mkKey uid c
            · have hsvceq : svc uid c' = svc uid c :=
                hinj c' (List.mem_cons_of_mem c hc') c (List.mem_cons_self c rest) hkeq
              exact Or.inl (Or.inr (hsvceq ▸ hx))
            · refine Or.inr ⟨c', hc', fun hk => ?_, hx⟩
              rcases hk with hk | hk
              · exact hnk hk
              · exact hkeq hk

theorem colPhase_imp_mem (svc : String → String → List String) :
    ∀ (ns : List Node) (st : TrackerState) (imp : List String)
      (log : List QEvent),
    (∀ n1 ∈ ns, ∀ c1 ∈ n1.columnChanges, ∀ n2 ∈ ns, ∀ c2 ∈ n2.columnChanges,
      mkKey n1.uniqueId c1 = mkKey n2.uniqueId c2 →
      svc n1.uniqueId c1 = svc n2.uniqueId c2) →
    (∀ n ∈ ns, ∀ c ∈ n.columnChanges, mkKey n.uniqueId c ∈ st.tracked →
      ∀ x ∈ svc n.uniqueId c, x ∈ imp) →
    ∀ x, x ∈ (colPhase svc ns st imp log).impacted ↔
      x ∈ imp ∨ ∃ n ∈ ns, ∃ c ∈ n.columnChanges,
        mkKey n.uniqueId c ∉ st.tracked ∧ x ∈ svc n.uniqueId c := by
  intro ns
  induction ns with
  | nil =>
      intro st imp log _ _ x
      simp [colPhase]
  | cons n rest ih =>
      intro st imp log hkey hcover x
      have hkey' : ∀ n1 ∈ rest, ∀ c1 ∈ n1.columnChanges, ∀ n2 ∈ rest,
          ∀ c2 ∈ n2.columnChanges,
          mkKey n1.uniqueId c1 = mkKey n2.uniqueId c2 →
          svc n1.uniqueId c1 = svc n2.uniqueId c2 :=
        fun n1 h1 c1 hc1 n2 h2 c2 hc2 h3 =>
          hkey n1 (List.mem_cons_of_mem n h1) c1 hc1 n2
            (List.mem_cons_of_mem n h2) c2 hc2 h3
      by_cases hemp : n.columnChanges.isEmpty
      · have hcols : n.columnChanges = [] := by simpa using hemp
        rw [colPhase, if_pos hemp,
          ih st imp log hkey' (fun n' h' => hcover n' (List.mem_cons_of_mem n h')) x]
        simp only [List.exists_mem_cons_iff, hcols]
        simp
      · rw [colPhase, if_neg hemp]
        have hinj_n : ∀ c ∈ n.columnChanges, ∀ c' ∈ n.columnChanges,
            mkKey n.uniqueId c = mkKey n.uniqueId c' →
            svc n.uniqueId c = svc n.uniqueId c' :=
          fun c hc c' hc' h3 =>
            hkey n (List.mem_cons_self n rest) c hc n (List.mem_cons_self n rest) c' hc' h3
        have hdelta : ∀ y, y ∈ (trackNodeColumns svc n st).delta ↔
            ∃ c ∈ n.columnChanges, mkKey n.uniqueId c ∉ st.tracked ∧
              y ∈ svc n.uniqueId c := by
          intro y
          unfold trackNodeColumns
          rw [trackGo_delta_mem svc n.uniqueId n.columnChanges hinj_n]
          simp
        have htr : ∀ k, k ∈ (trackNodeColumns svc n st).state.tracked ↔
            k ∈ st.tracked ∨ ∃ c ∈ n.columnChanges, k = mkKey n.uniqueId c := by
          intro k
          unfold trackNodeColumns
          rw [trackGo_tracked_mem]
        have hcover' : ∀ n' ∈ rest, ∀ c' ∈ n'.columnChanges,
            mkKey n'.uniqueId c' ∈ (trackNodeColumns svc n st).state.tracked →
            ∀ x' ∈ svc n'.uniqueId c',
              x' ∈ listUnion imp (trackNodeColumns svc n st).delta := by
          intro n' hn' c' hc' hkmem x' hx'
          rcases (htr _).mp hkmem with hk | ⟨c, hcm, hkeq⟩
          · exact mem_listUnion.mpr (Or.inl
              (hcover n' (List.mem_cons_of_mem n hn') c' hc' hk x' hx'))
          · have hsvceq : svc n'.uniqueId c' = svc n.uniqueId c :=
              hkey n' (List.mem_cons_of_mem n hn') c' hc' n
                (List.mem_cons_self n rest) c hcm hkeq
            by_cases htk : mkKey n.uniqueId c ∈ st.tracked
            · exact mem_listUnion.mpr (Or.inl
                (hcover n (List.mem_cons_self n rest) c hcm htk x' (hsvceq ▸ hx')))
            · exact mem_listUnion.mpr (Or.inr
                ((hdelta x').mpr ⟨c, hcm, htk, hsvceq ▸ hx'⟩))
        rw [ih _ _ _ hkey' hcover' x, mem_listUnion, hdelta x]
        simp only [List.exists_mem_cons_iff]
        constructor
        · rintro ((him | hdel) | ⟨n', hn', c', hc', hnk, hx⟩)
          · exact Or.inl him
          · exact Or.inr (Or.inl hdel)
          · exact Or.inr (Or.inr ⟨n', hn', c', hc',
              fun hk => hnk ((htr _).mpr (Or.inl hk)), hx⟩)
        · rintro (him | (⟨c, hcm, hnk, hx⟩ | ⟨n', hn', c', hc', hnk, hx⟩))
          · exact Or.inl (Or.inl him)
          · exact Or.inl (Or.inr ⟨c, hcm, hnk, hx⟩)
          · by_cases hk2 : mkKey n'.uniqueId c' ∈ (trackNodeColumns svc n st).state.tracked
            · rcases mem_listUnion.mp (hcover' n' hn' c' hc' hk2 x hx) with h | h
              · exact Or.inl (Or.inl h)
              · exact Or.inl (Or.inr ((hdelta x).mp h))
            · exact Or.inr ⟨n', hn', c', hc', hk2, hx⟩

/-- Claim C8: for a non-empty node batch and non-empty candidate
universe (and memoization keys that do not conflate distinct lookups),
the resolver's output is exactly the candidate universe minus the
impacted set — the union of the column-level lookups of every changed
column with the node-level lookup over the ignore nodes — with each
surviving unique id rendered as its trailing dot-delimited segment. -/
theorem C8_excluded_eq_universe_minus_impacted
    (svcCol : String → String → List String) (svcNode : List Node → List String)
    (nodes : List Node) (allUniqueIds : List String)
    (h1 : nodes ≠ []) (h2 : allUniqueIds ≠ [])
    (hkey : ∀ n1 ∈ nodes, ∀ c1 ∈ n1.columnChanges, ∀ n2 ∈ nodes,
      ∀ c2 ∈ n2.columnChanges,
      mkKey n1.uniqueId c1 = mkKey n2.uniqueId c2 →
      svcCol n1.uniqueId c1 = svcCol n2.uniqueId c2) :
    ∀ name, name ∈ (getExcludedNodes svcCol svcNode nodes allUniqueIds).excluded ↔
      ∃ uid ∈ allUniqueIds, ¬ impactedSpec svcCol svcNode nodes uid ∧
        lastSeg uid = name := by
  have hne1 : nodes.isEmpty = false := by
    cases nodes with
    | nil => exact absurd rfl h1
    | cons a t => rfl
  have hne2 : allUniqueIds.isEmpty = false := by
    cases allUniqueIds with
    | nil => exact absurd rfl h2
    | cons a t => rfl
  have hcp : ∀ x, x ∈ (colPhase svcCol nodes ⟨[], []⟩ [] []).impacted ↔
      ∃ n ∈ nodes, ∃ c ∈ n.columnChanges, x ∈ svcCol n.uniqueId c := by
    intro x
    rw [colPhase_imp_mem svcCol nodes ⟨[], []⟩ [] [] hkey
      (fun n _ c _ hk => absurd hk (List.not_mem_nil _)) x]
    simp [List.not_mem_nil]
  have himp2 : ∀ u, u ∈ (if (nodes.filter (fun n => n.ignoreColumnChanges)).isEmpty
        then (colPhase svcCol nodes ⟨[], []⟩ [] []).impacted
        else listUnion (colPhase svcCol nodes ⟨[], []⟩ [] []).impacted
          (svcNode (nodes.filter (fun n => n.ignoreColumnChanges)))) ↔
      impactedSpec svcCol svcNode nodes u := by
    intro u
    by_cases hig : (nodes.filter (fun n => n.ignoreColumnChanges)).isEmpty
    · rw [if_pos hig, hcp u]
      unfold impactedSpec
      simp [hig]
    · have hig' : (nodes.filter (fun n => n.ignoreColumnChanges)).isEmpty = false := by
        simpa using hig
      rw [if_neg hig, mem_listUnion, hcp u]
      unfold impactedSpec
      simp [hig']
  intro name
  simp only [getExcludedNodes, hne1, hne2, Bool.false_eq_true, if_false]
  rw [List.mem_map]
  constructor
  · rintro ⟨u, hu, rfl⟩
    rcases List.mem_filter.mp hu with ⟨hu1, hu2⟩
    refine ⟨u, hu1, ?_, rfl⟩
    intro hspec
    have hcont := (contains_iff _ _).mpr ((himp2 u).mpr hspec)
    simp only [Bool.not_eq_true'] at hu2
    rw [hcont] at hu2
    exact Bool.noConfusion hu2
  · rintro ⟨u, hu1, hnspec, rfl⟩
    refine ⟨u, List.mem_filter.mpr ⟨hu1, ?_⟩, rfl⟩
    have hnc : ¬ ((if (nodes.filter (fun n => n.ignoreColumnChanges)).isEmpty
          then (colPhase svcCol nodes ⟨[], []⟩ [] []).impacted
          else listUnion (colPhase svcCol nodes ⟨[], []⟩ [] []).impacted
            (svcNode (nodes.filter (fun n => n.ignoreColumnChanges)))).contains u
          = true) :=
      fun h => hnspec ((himp2 u).mp ((contains_iff _ _).mp h))
    simp only [Bool.not_eq_true']
    exact Bool.eq_false_iff.mpr hnc

/-- Node literal for the C8 witness: changed model A with one changed
column `x`. -/
def c8nodeA : Node :=
  ⟨"model.p.a", Expr.node {} [], Expr.node {} [], [], [], false, ["x"]⟩

/-- Column lineage for the C8 witness: column `x` of model A is
consumed only by model B. -/
def c8svcCol (uid c : String) : List String :=
  if uid = "model.p.a" ∧ c = "x" then ["model.p.b"] else []

/-- Witness for C8: with universe {B, C} and column `x` consumed only
by B, the resolver excludes exactly the bare name of C. -/
theorem C8_excluded_eq_universe_minus_impacted_witness :
    "c" ∈ (getExcludedNodes c8svcCol (fun _ => []) [c8nodeA]
      ["model.p.b", "model.p.c"]).excluded :=
  (C8_excluded_eq_universe_minus_impacted c8svcCol (fun _ => []) [c8nodeA]
      ["model.p.b", "model.p.c"] (List.cons_ne_nil _ _) (List.cons_ne_nil _ _)
      (by decide) "c").mpr
    ⟨"model.p.c", by decide, by decide, by decide⟩

end DbtCI
